import Mathlib

/-!
Verification development for the client-side JSON-RPC transport of the
repository (the `McpClient` class and its line framer, request correlation,
timeout and typed-method logic).

Strings from the source are modelled as `List Char`; JS `Map` keys are
modelled as an id list where deletion removes every occurrence of the key
(a JS `Map` holds each key at most once); JSON numbers used by the protocol
(request ids, limits) are modelled as `Int`.  `JSON.parse` and
`JSON.stringify` of opaque payload text are external platform primitives and
are passed to the embedded functions as explicit parameters.
-/

namespace Mcp

/-- A JSON value, as constructed by the client when building request
envelopes (`JsonRpcRequest` bodies).  Protocol numbers are integers. -/
inductive Json where
  | null : Json
  | bool (b : Bool) : Json
  | num (n : Int) : Json
  | str (s : String) : Json
  | arr (elems : List Json) : Json
  | obj (fields : List (String × Json)) : Json
deriving Repr

/-- The error member of a response envelope (code and message). -/
structure RpcError where
  code : Int
  message : String
deriving Repr, DecidableEq

/-- A decoded response envelope, as read by `handleData` after `JSON.parse`:
only the `id`, `error` and `result` members are consulted by the client. -/
structure JsonRpcResponse where
  id : Int
  result : Option Json := none
  error : Option RpcError := none
deriving Repr

/-- A request envelope, as built by `McpClient.call`:
`(jsonrpc: 2.0, method, params, id)`. -/
structure Request where
  jsonrpc : String
  method : String
  params : Json
  id : Int
deriving Repr

/-- Observable effects of the client on its callers: resolving a pending
promise with a result, rejecting it with the peer error message, rejecting it
with the request-timeout error, or logging a line that failed to parse. -/
inductive Effect where
  | resolved (id : Int) (result : Option Json) : Effect
  | rejectedRemote (id : Int) (msg : String) : Effect
  | timedOut (id : Int) : Effect
  | decodeError (line : List Char) : Effect
deriving Repr

/-- The id a caller-visible effect concerns, if any. -/
def Effect.ident : Effect → Option Int
  | .resolved i _ => some i
  | .rejectedRemote i _ => some i
  | .timedOut i => some i
  | .decodeError _ => none

/-- The mutable state of a `McpClient` instance: `processAlive` models
`this.process !== null` (with its stdin pipe), `connected` the `connected`
flag, `requestId` the id counter, `pending` the key set of the
`pendingRequests` map, and `buffer` the partial-line read buffer. -/
structure Client where
  processAlive : Bool
  connected : Bool
  requestId : Int
  pending : List Int
  buffer : List Char
deriving Repr, DecidableEq

/- Framer: model of the line-splitting part of `handleData`. -/

/-- Prepend a character to the first complete line of a split result, or to
the retained buffer when no complete line was produced. -/
def consHead (c : Char) : List (List Char) × List Char → List (List Char) × List Char
  | ([], b) => ([], c :: b)
  | (l :: ls, b) => ((c :: l) :: ls, b)

/-- Split a character stream at newline characters, returning the complete
(newline-terminated) lines with the newline stripped, and the trailing
incomplete line.  This is the model of
`const lines = this.buffer.split('\n'); this.buffer = lines.pop() || ''`
in `handleData`: the last element of the JS split is the retained buffer,
the rest are the emitted lines. -/
def splitNl : List Char → List (List Char) × List Char
  | [] => ([], [])
  | c :: cs =>
    if c = '\n' then
      ([] :: (splitNl cs).1, (splitNl cs).2)
    else
      consHead c (splitNl cs)

lemma splitNl_nil : splitNl [] = ([], []) := rfl

lemma splitNl_cons_nl (cs : List Char) :
    splitNl ('\n' :: cs) = ([] :: (splitNl cs).1, (splitNl cs).2) := by
  rw [splitNl]
  simp

lemma splitNl_cons_of_ne {c : Char} (cs : List Char) (hc : c ≠ '\n') :
    splitNl (c :: cs) = consHead c (splitNl cs) := by
  rw [splitNl, if_neg hc]

/-- One `feed` of the framer portion of `handleData`: append the chunk to
the buffer and split off the complete lines. -/
def feed (buf data : List Char) : List (List Char) × List Char :=
  splitNl (buf ++ data)

/-- Feed a list of chunks one at a time, threading the retained buffer,
collecting all emitted lines in order. -/
def feedAll (buf : List Char) : List (List Char) → List (List Char) × List Char
  | [] => ([], buf)
  | d :: ds =>
    ((feed buf d).1 ++ (feedAll (feed buf d).2 ds).1,
      (feedAll (feed buf d).2 ds).2)

lemma splitNl_append (xs ys : List Char) :
    splitNl (xs ++ ys) =
      ((splitNl xs).1 ++ (splitNl ((splitNl xs).2 ++ ys)).1,
       (splitNl ((splitNl xs).2 ++ ys)).2) := by
  induction xs with
  | nil => simp [splitNl_nil]
  | cons c cs ih =>
    by_cases hc : c = '\n'
    · subst hc
      rw [List.cons_append, splitNl_cons_nl, splitNl_cons_nl, ih]
      simp
    · rw [List.cons_append, splitNl_cons_of_ne (cs ++ ys) hc,
        splitNl_cons_of_ne cs hc, ih]
      cases hp : splitNl cs with
      | mk L B =>
        cases L with
        | nil =>
          simp only [consHead, List.nil_append]
          rw [List.cons_append, splitNl_cons_of_ne (B ++ ys) hc]
          cases hq : splitNl (B ++ ys) with
          | mk M C => cases M <;> simp [consHead]
        | cons l ls => simp [consHead]

lemma splitNl_no_newline (xs : List Char) :
    ∀ l ∈ (splitNl xs).1, '\n' ∉ l := by
  induction xs with
  | nil => simp [splitNl_nil]
  | cons c cs ih =>
    by_cases hc : c = '\n'
    · subst hc
      rw [splitNl_cons_nl]
      intro l hl
      rcases List.mem_cons.mp hl with hl | hl
      · simp [hl]
      · exact ih l hl
    · rw [splitNl_cons_of_ne cs hc]
      cases hp : splitNl cs with
      | mk L B =>
        cases L with
        | nil => simp [consHead]
        | cons m ms =>
          intro l hl
          rcases List.mem_cons.mp (by simpa [consHead] using hl) with hl | hl
          · subst hl
            intro hmem
            rcases List.mem_cons.mp hmem with hh | hh
            · exact hc hh.symm
            · exact ih m (by simp [hp]) hh
          · exact ih l (by simp [hp, hl])

lemma splitNl_buffer_no_newline (xs : List Char) : '\n' ∉ (splitNl xs).2 := by
  induction xs with
  | nil => simp [splitNl_nil]
  | cons c cs ih =>
    by_cases hc : c = '\n'
    · subst hc
      rw [splitNl_cons_nl]
      exact ih
    · rw [splitNl_cons_of_ne cs hc]
      cases hp : splitNl cs with
      | mk L B =>
        have hB : '\n' ∉ B := by
          have := ih
          rw [hp] at this
          exact this
        cases L with
        | nil =>
          simp only [consHead, List.mem_cons]
          rintro (hh | hh)
          · exact hc hh.symm
          · exact hB hh
        | cons l ls => simpa [consHead] using hB

lemma splitNl_of_no_newline (xs : List Char) (h : '\n' ∉ xs) :
    splitNl xs = ([], xs) := by
  induction xs with
  | nil => simp [splitNl_nil]
  | cons c cs ih =>
    have hc : c ≠ '\n' := fun hh => h (by simp [hh])
    have hcs : '\n' ∉ cs := fun hh => h (by simp [hh])
    rw [splitNl_cons_of_ne cs hc, ih hcs]
    simp [consHead]

/-- C2. Chunked feeding is equivalent to feeding the concatenation in one
call: starting from any newline-free retained buffer, feeding the chunks one
at a time emits exactly the same complete lines, in the same order, and
leaves the same retained buffer, as a single feed of the joined byte
sequence; moreover every emitted line has its newline stripped (no emitted
line contains a newline), so no non-empty line is dropped or altered. -/
theorem framer_chunked_feed_eq_single_feed (buf : List Char)
    (chunks : List (List Char)) (hbuf : '\n' ∉ buf) :
    feedAll buf chunks = feed buf chunks.flatten ∧
      ∀ l ∈ (feedAll buf chunks).1, '\n' ∉ l := by
  have main : ∀ (ds : List (List Char)) (b : List Char), '\n' ∉ b →
      feedAll b ds = feed b ds.flatten := by
    intro ds
    induction ds with
    | nil =>
      intro b hb
      simp [feedAll, feed, splitNl_of_no_newline b hb]
    | cons d ds ih =>
      intro b hb
      have hb2 : '\n' ∉ (feed b d).2 := splitNl_buffer_no_newline _
      show ((feed b d).1 ++ (feedAll (feed b d).2 ds).1,
          (feedAll (feed b d).2 ds).2) = feed b (d :: ds).flatten
      rw [ih _ hb2]
      show ((splitNl (b ++ d)).1 ++ (splitNl ((splitNl (b ++ d)).2 ++ ds.flatten)).1,
          (splitNl ((splitNl (b ++ d)).2 ++ ds.flatten)).2) =
        splitNl (b ++ (d :: ds).flatten)
      rw [List.flatten_cons, ← List.append_assoc, splitNl_append (b ++ d) ds.flatten]
  refine ⟨main chunks buf hbuf, ?_⟩
  rw [main chunks buf hbuf]
  exact splitNl_no_newline _

/-- Witness for the framer equivalence: splitting the stream
"ab&#92;ncd" as the two chunks "ab&#92;nc" and "d" (with an empty initial
buffer) emits the single line "ab" and retains "cd", exactly as one feed
of the whole stream does. -/
theorem framer_chunked_feed_eq_single_feed_witness :
    ('\n' ∉ ([] : List Char)) ∧
      (feedAll [] [['a', 'b', '\n', 'c'], ['d']] =
          feed [] (List.flatten [['a', 'b', '\n', 'c'], ['d']]) ∧
        ∀ l ∈ (feedAll [] [['a', 'b', '\n', 'c'], ['d']]).1, '\n' ∉ l) := by
  refine ⟨by simp, ?_⟩
  exact framer_chunked_feed_eq_single_feed [] [['a', 'b', '\n', 'c'], ['d']]
    (by simp)

/- RPC client operations. -/

/-- Deletion from the pending map (`this.pendingRequests.delete(id)`): the
key is removed entirely (a JS Map holds each key at most once). -/
def mapDelete (p : List Int) (id : Int) : List Int :=
  p.filter (fun k => k ≠ id)

/-- Model of `!line.trim()`: the line is empty or whitespace-only and is
skipped by `handleData`. -/
def isBlank (l : List Char) : Bool :=
  l.all (fun ch => ch.isWhitespace)

/-- The caller-visible effect of routing one decoded response envelope to
its pending promise: `pending.reject(new Error(response.error.message))`
when an error member is present, `pending.resolve(response.result)`
otherwise. -/
def respEffect (r : JsonRpcResponse) : Effect :=
  match r.error with
  | some e => .rejectedRemote r.id e.message
  | none => .resolved r.id r.result

/-- The routing step of `handleData` for one decoded envelope: if the id is
in the pending map, delete it and resolve/reject the promise; otherwise the
envelope is discarded with no effect. -/
def routeResp (p : List Int) (r : JsonRpcResponse) : List Int × List Effect :=
  if r.id ∈ p then (mapDelete p r.id, [respEffect r]) else (p, [])

/-- Processing of one complete line by `handleData`: blank lines are
skipped; a line `JSON.parse` rejects (the `parse` parameter returns `none`)
is only logged (`decodeError`); otherwise the decoded envelope is routed. -/
def routeLine (parse : List Char → Option JsonRpcResponse)
    (p : List Int) (l : List Char) : List Int × List Effect :=
  if isBlank l then (p, [])
  else
    match parse l with
    | none => (p, [Effect.decodeError l])
    | some r => routeResp p r

/-- Process the complete lines of one `handleData` invocation in order,
threading the pending map and concatenating the emitted effects. -/
def processLines (parse : List Char → Option JsonRpcResponse)
    (p : List Int) : List (List Char) → List Int × List Effect
  | [] => (p, [])
  | l :: ls =>
    ((processLines parse (routeLine parse p l).1 ls).1,
      (routeLine parse p l).2 ++ (processLines parse (routeLine parse p l).1 ls).2)

/-- `McpClient.handleData`: append the chunk to the read buffer, split off
the complete lines, retain the trailing partial line, and process each
complete line. -/
def handleData (parse : List Char → Option JsonRpcResponse)
    (c : Client) (data : List Char) : Client × List Effect :=
  (({ c with
      buffer := (splitNl (c.buffer ++ data)).2,
      pending := (processLines parse c.pending (splitNl (c.buffer ++ data)).1).1 }),
    (processLines parse c.pending (splitNl (c.buffer ++ data)).1).2)

/-- `McpClient.call`: throws `Not connected to MCP server` (modelled as
`none`, with nothing written) when `this.process?.stdin` is absent;
otherwise assigns the id `++this.requestId`, registers a pending entry, and
returns the request envelope that is serialized and written. -/
def call (c : Client) (method : String) (params : Json) :
    Option (Client × Request) :=
  if c.processAlive then
    some ({ c with
        requestId := c.requestId + 1,
        pending := (c.requestId + 1) :: c.pending },
      { jsonrpc := "2.0", method := method, params := params,
        id := c.requestId + 1 })
  else
    none

/-- `McpClient.disconnect`: when a process handle exists, kill it, null the
handle and clear the connected flag.  Nothing else happens: in particular
the pending map is not consulted, so the returned effect list is empty. -/
def disconnect (c : Client) : Client × List Effect :=
  if c.processAlive then
    ({ c with processAlive := false, connected := false }, [])
  else
    (c, [])

/-- The per-request `setTimeout` callback firing for `id`: if the id is
still pending, delete it and reject with the request-timeout error;
otherwise do nothing. -/
def timeoutFire (c : Client) (id : Int) : Client × List Effect :=
  if id ∈ c.pending then
    ({ c with pending := mapDelete c.pending id }, [Effect.timedOut id])
  else
    (c, [])

/-- A concrete Ready client with one outstanding pending request (id 1). -/
def readyOnePending : Client :=
  { processAlive := true, connected := true, requestId := 1, pending := [1],
    buffer := [] }

/-- A concrete client whose worker has been spawned but whose handshake has
not completed: the state the client is in while `initialize` is in flight. -/
def connectingClient : Client :=
  { processAlive := true, connected := false, requestId := 0, pending := [],
    buffer := [] }

/-- A concrete Ready client with no outstanding request. -/
def readyClient : Client :=
  { processAlive := true, connected := true, requestId := 0, pending := [],
    buffer := [] }

/-- C1 counterexample. In a connected state with one outstanding pending
request, `disconnect()` leaves the pending entry registered (the pending set
is not empty afterwards) and emits no resolution at all, contrary to the
claim that every pending request is resolved with a closed-connection error
and the pending set is left empty. -/
theorem disconnect_leaves_pending_counterexample :
    (disconnect readyOnePending).1.pending ≠ [] ∧
      (disconnect readyOnePending).2 = [] := by
  constructor
  · decide
  · rfl

lemma disconnect_spec (c : Client) :
    (disconnect c).1.pending = c.pending ∧
      (disconnect c).1.requestId = c.requestId ∧
      (disconnect c).1.buffer = c.buffer ∧
      (disconnect c).1.processAlive = false ∧
      (disconnect c).1.connected = (c.connected && !c.processAlive) ∧
      (disconnect c).2 = [] := by
  unfold disconnect
  by_cases h : c.processAlive
  · simp [h]
  · simp at h
    simp [h]

/-- C1 amended. `disconnect()` terminates the worker process (the handle is
cleared and the client is disconnected) but does not touch the pending map:
the pending set, the id counter and the read buffer are unchanged and no
pending request is resolved or rejected at that moment (each outstanding
request is only rejected later by its own 30-second timeout). -/
theorem disconnect_kills_process_but_leaves_pending (c : Client) :
    (disconnect c).1.pending = c.pending ∧
      (disconnect c).1.requestId = c.requestId ∧
      (disconnect c).1.buffer = c.buffer ∧
      (disconnect c).1.processAlive = false ∧
      (disconnect c).1.connected = (c.connected && !c.processAlive) ∧
      (disconnect c).2 = [] :=
  disconnect_spec c

/-- C8 counterexample. A client whose worker process is spawned but whose
handshake has not completed (`connected = false`, so the client is not in
the Ready state) still executes `call` successfully and produces a request
envelope to write, contrary to the claim that every `call` outside Ready
fails with a Transport error and writes nothing. -/
theorem call_succeeds_when_not_ready_counterexample :
    connectingClient.connected = false ∧
      (call connectingClient "m" Json.null).isSome = true := by
  constructor
  · rfl
  · rfl

/-- C8 amended. `call` fails with the Transport error
(`Not connected to MCP server`), writing nothing, exactly when the worker
process handle is absent (`this.process?.stdin` missing, e.g. before any
`connect()` or after `disconnect()`); when a process handle exists the call
proceeds and an envelope is written regardless of the `connected`/Ready
flag (in particular during the Connecting handshake and after the process
has exited, since the `close` handler clears only the flag, not the
handle). -/
theorem call_guard_is_process_handle (c : Client) (m : String) (ps : Json) :
    (call c m ps = none ↔ c.processAlive = false) := by
  unfold call
  by_cases h : c.processAlive
  · simp [h]
  · simp at h
    simp [h]

/-- C9. A decoded response envelope whose id is not in the pending map is
discarded by the routing step without any effect: the pending map is
returned unchanged (every other entry remains registered and unresolved)
and no caller-visible effect is emitted. -/
theorem orphan_response_discarded (p : List Int) (r : JsonRpcResponse)
    (h : r.id ∉ p) : routeResp p r = (p, []) := by
  unfold routeResp
  simp [h]

/-- Witness for the orphan-response theorem: routing an envelope with id 7
against the pending set containing ids 1 and 2 leaves exactly that pending
set and produces no effect. -/
theorem orphan_response_discarded_witness :
    ((7 : Int) ∉ [(1 : Int), 2]) ∧
      routeResp [1, 2] { id := 7 } = ([1, 2], []) := by
  refine ⟨by decide, ?_⟩
  exact orphan_response_discarded [1, 2] { id := 7 } (by decide)

/-- A decoder that rejects every line (models `JSON.parse` throwing on any
input it is given). -/
def parseNone : List Char → Option JsonRpcResponse := fun _ => none

/-- C6. A line that fails JSON decoding is isolated: processing it emits
only the logged decode error, the pending map handed to the remaining lines
is exactly the map from before the malformed line, and every following line
is processed as if the malformed line had produced nothing — in particular
no pending request is resolved or rejected because of the malformed line. -/
theorem malformed_line_isolated (parse : List Char → Option JsonRpcResponse)
    (p : List Int) (l : List Char) (rest : List (List Char))
    (hb : isBlank l = false) (hp : parse l = none) :
    processLines parse p (l :: rest) =
      ((processLines parse p rest).1,
        Effect.decodeError l :: (processLines parse p rest).2) := by
  simp [processLines, routeLine, hb, hp]

/-- Witness for malformed-line isolation: a one-character line rejected by
the decoder, followed by another line, leaves the pending set [1] for the
following line and only logs the bad line. -/
theorem malformed_line_isolated_witness :
    isBlank ['x'] = false ∧ parseNone ['x'] = none ∧
      processLines parseNone [1] (['x'] :: [['y']]) =
        ((processLines parseNone [1] [['y']]).1,
          Effect.decodeError ['x'] :: (processLines parseNone [1] [['y']]).2) := by
  refine ⟨rfl, rfl, ?_⟩
  exact malformed_line_isolated parseNone [1] ['x'] [['y']] rfl rfl

/- Event model for request resolution: the JS event loop runs the routing
of each decoded response envelope and each per-request timeout callback
sequentially, in some arrival order. -/

/-- An event affecting the pending map: the routing of one decoded response
envelope, or the firing of one request's `setTimeout` callback. -/
inductive Ev where
  | response (r : JsonRpcResponse) : Ev
  | timeoutFired (id : Int) : Ev

/-- Process one event against the client state. -/
def stepEv (c : Client) : Ev → Client × List Effect
  | .response r =>
    ({ c with pending := (routeResp c.pending r).1 }, (routeResp c.pending r).2)
  | .timeoutFired i => timeoutFire c i

/-- Process a sequence of events, concatenating the emitted effects. -/
def runEv (c : Client) : List Ev → Client × List Effect
  | [] => (c, [])
  | e :: es =>
    ((runEv (stepEv c e).1 es).1,
      (stepEv c e).2 ++ (runEv (stepEv c e).1 es).2)

/-- Whether an event concerns the request with the given id. -/
def evTargets (id : Int) : Ev → Bool
  | .response r => r.id == id
  | .timeoutFired j => j == id

/-- The effect an event produces when it wins the race for its request. -/
def evEffect : Ev → Effect
  | .response r => respEffect r
  | .timeoutFired j => .timedOut j

/-- The caller-visible effects concerning one request id. -/
def effsFor (id : Int) (effs : List Effect) : List Effect :=
  effs.filter (fun e => e.ident == some id)

lemma mem_mapDelete {p : List Int} {i j : Int} :
    i ∈ mapDelete p j ↔ i ∈ p ∧ i ≠ j := by
  simp [mapDelete]

lemma effsFor_append (id : Int) (a b : List Effect) :
    effsFor id (a ++ b) = effsFor id a ++ effsFor id b := by
  simp [effsFor]

lemma respEffect_ident (r : JsonRpcResponse) :
    (respEffect r).ident = some r.id := by
  unfold respEffect
  cases r.error <;> rfl

lemma stepEv_not_pending (c : Client) (id : Int) (e : Ev)
    (h : id ∉ c.pending) :
    effsFor id (stepEv c e).2 = [] ∧ id ∉ (stepEv c e).1.pending := by
  cases e with
  | response r =>
    by_cases hr : r.id ∈ c.pending
    · have hne : r.id ≠ id := fun hh => h (hh ▸ hr)
      constructor
      · simp [stepEv, routeResp, hr, effsFor, respEffect_ident, hne]
      · simp only [stepEv, routeResp, if_pos hr]
        intro hmem
        exact h (mem_mapDelete.mp hmem).1
    · simp [stepEv, routeResp, hr, effsFor, h]
  | timeoutFired j =>
    by_cases hj : j ∈ c.pending
    · have hne : j ≠ id := fun hh => h (hh ▸ hj)
      constructor
      · simp [stepEv, timeoutFire, hj, effsFor, Effect.ident, hne]
      · simp only [stepEv, timeoutFire, if_pos hj]
        intro hmem
        exact h (mem_mapDelete.mp hmem).1
    · simp [stepEv, timeoutFire, hj, effsFor, h]

lemma stepEv_target (c : Client) (id : Int) (e : Ev)
    (ht : evTargets id e = true) (h : id ∈ c.pending) :
    (stepEv c e).2 = [evEffect e] ∧ (evEffect e).ident = some id ∧
      id ∉ (stepEv c e).1.pending := by
  cases e with
  | response r =>
    have hid : r.id = id := by simpa [evTargets] using ht
    subst hid
    refine ⟨by simp [stepEv, routeResp, h, evEffect],
      by simp [evEffect, respEffect_ident], ?_⟩
    simp only [stepEv, routeResp, if_pos h]
    intro hmem
    exact (mem_mapDelete.mp hmem).2 rfl
  | timeoutFired j =>
    have hid : j = id := by simpa [evTargets] using ht
    subst hid
    refine ⟨by simp [stepEv, timeoutFire, h, evEffect], rfl, ?_⟩
    simp only [stepEv, timeoutFire, if_pos h]
    intro hmem
    exact (mem_mapDelete.mp hmem).2 rfl

lemma stepEv_not_target (c : Client) (id : Int) (e : Ev)
    (ht : evTargets id e = false) :
    effsFor id (stepEv c e).2 = [] ∧
      (id ∈ (stepEv c e).1.pending ↔ id ∈ c.pending) := by
  cases e with
  | response r =>
    have hne : r.id ≠ id := by simpa [evTargets] using ht
    by_cases hr : r.id ∈ c.pending
    · constructor
      · simp [stepEv, routeResp, hr, effsFor, respEffect_ident, hne]
      · simp only [stepEv, routeResp, if_pos hr]
        rw [mem_mapDelete]
        constructor
        · exact fun hh => hh.1
        · exact fun hh => ⟨hh, fun he => hne he.symm⟩
    · simp [stepEv, routeResp, hr, effsFor]
  | timeoutFired j =>
    have hne : j ≠ id := by simpa [evTargets] using ht
    by_cases hj : j ∈ c.pending
    · constructor
      · simp [stepEv, timeoutFire, hj, effsFor, Effect.ident, hne]
      · simp only [stepEv, timeoutFire, if_pos hj]
        rw [mem_mapDelete]
        constructor
        · exact fun hh => hh.1
        · exact fun hh => ⟨hh, fun he => hne he.symm⟩
    · simp [stepEv, timeoutFire, hj, effsFor]

lemma runEv_not_pending (id : Int) (evs : List Ev) :
    ∀ c : Client, id ∉ c.pending →
      effsFor id (runEv c evs).2 = [] ∧ id ∉ (runEv c evs).1.pending := by
  induction evs with
  | nil => intro c h; exact ⟨rfl, h⟩
  | cons e es ih =>
    intro c h
    obtain ⟨h1, h2⟩ := stepEv_not_pending c id e h
    obtain ⟨h3, h4⟩ := ih (stepEv c e).1 h2
    refine ⟨?_, h4⟩
    rw [runEv]
    simp [effsFor_append, h1, h3]

/-- C3. First-event-wins, exactly-once resolution.  For a pending request
id and any interleaving of response-routing and timeout-callback events,
the caller-visible effects concerning that id are exactly the effect of the
first event targeting it (the timeout rejection if the timeout fires first,
the response resolution/rejection if the response is routed first); the
pending entry is removed at that first event, so every later event for the
same id — including a late response for a timed-out request — is a no-op,
and the id stays pending exactly when no event targeted it. -/
theorem pending_request_resolved_exactly_once (c : Client) (id : Int)
    (evs : List Ev) (h : id ∈ c.pending) :
    effsFor id (runEv c evs).2 =
        ((evs.filter (evTargets id)).head?.map evEffect).toList ∧
      (id ∈ (runEv c evs).1.pending ↔ evs.filter (evTargets id) = []) := by
  induction evs generalizing c with
  | nil =>
    refine ⟨rfl, ?_⟩
    simpa [runEv] using h
  | cons e es ih =>
    by_cases ht : evTargets id e
    · obtain ⟨h1, h2, h3⟩ := stepEv_target c id e ht h
      obtain ⟨h4, h5⟩ := runEv_not_pending id es (stepEv c e).1 h3
      constructor
      · rw [runEv, effsFor_append, h1, h4]
        simp [effsFor, h2, List.filter_cons, ht]
      · rw [runEv]
        simp only [List.filter_cons, ht, if_pos]
        constructor
        · intro hmem; exact absurd hmem h5
        · intro hh; exact absurd hh (by simp)
    · have htf : evTargets id e = false := by simpa using ht
      obtain ⟨h1, h2⟩ := stepEv_not_target c id e htf
      have hp : id ∈ (stepEv c e).1.pending := h2.mpr h
      obtain ⟨h3, h4⟩ := ih (stepEv c e).1 hp
      constructor
      · rw [runEv, effsFor_append, h1, h3]
        simp [List.filter_cons, htf]
      · rw [runEv]
        simpa [List.filter_cons, htf] using h4

/-- A concrete client with request 5 pending. -/
def pendingFive : Client :=
  { processAlive := true, connected := true, requestId := 5, pending := [5],
    buffer := [] }

/-- Timeout for request 5 firing, then a late response for id 5 arriving. -/
def lateRespEvents : List Ev :=
  [Ev.timeoutFired 5, Ev.response { id := 5 }]

/-- Witness for exactly-once resolution: with request 5 pending, firing its
timeout and then routing a late response for id 5 produces exactly the
single timeout rejection, and the late response resolves nothing. -/
theorem pending_request_resolved_exactly_once_witness :
    ((5 : Int) ∈ pendingFive.pending) ∧
      (effsFor 5 (runEv pendingFive lateRespEvents).2 =
          ((lateRespEvents.filter (evTargets 5)).head?.map evEffect).toList ∧
        ((5 : Int) ∈ (runEv pendingFive lateRespEvents).1.pending ↔
          lateRespEvents.filter (evTargets 5) = [])) := by
  refine ⟨by decide, ?_⟩
  exact pending_request_resolved_exactly_once pendingFive 5 lateRespEvents
    (by decide)

/- Sequences of call invocations and the whole-instance operation model. -/

/-- Issue a sequence of `call` invocations (method/params pairs) on one
connection, collecting the assigned request ids in issuance order.  A
failing `call` (no process handle) assigns no id and stops the run. -/
def runCalls (c : Client) : List (String × Json) → Client × List Int
  | [] => (c, [])
  | (m, ps) :: rs =>
    match call c m ps with
    | none => (c, [])
    | some (c1, req) =>
      ((runCalls c1 rs).1, req.id :: (runCalls c1 rs).2)

/-- The client state after a successful `call` (id counter bumped, fresh id
registered as pending). -/
def callSucc (c : Client) : Client :=
  { c with requestId := c.requestId + 1, pending := (c.requestId + 1) :: c.pending }

/-- The request envelope a successful `call` builds. -/
def callReq (c : Client) (m : String) (ps : Json) : Request :=
  { jsonrpc := "2.0", method := m, params := ps, id := c.requestId + 1 }

lemma call_eq_of_alive {c : Client} (h : c.processAlive = true)
    (m : String) (ps : Json) :
    call c m ps = some (callSucc c, callReq c m ps) := by
  unfold call callSucc callReq
  rw [if_pos h]

lemma call_eq_of_dead {c : Client} (h : c.processAlive = false)
    (m : String) (ps : Json) : call c m ps = none := by
  unfold call
  rw [if_neg (by simp [h])]

lemma callSucc_requestId (c : Client) :
    (callSucc c).requestId = c.requestId + 1 := rfl

lemma callSucc_alive (c : Client) :
    (callSucc c).processAlive = c.processAlive := rfl

lemma callReq_id (c : Client) (m : String) (ps : Json) :
    (callReq c m ps).id = c.requestId + 1 := rfl

lemma runCalls_ids (reqs : List (String × Json)) :
    ∀ c : Client, c.processAlive = true →
      List.Pairwise (· < ·) (runCalls c reqs).2 ∧
        ∀ i ∈ (runCalls c reqs).2, c.requestId < i := by
  induction reqs with
  | nil => intro c _; exact ⟨List.Pairwise.nil, by simp [runCalls]⟩
  | cons r rs ih =>
    intro c hc
    obtain ⟨m, ps⟩ := r
    rw [runCalls, call_eq_of_alive hc m ps]
    obtain ⟨ih1, ih2⟩ := ih (callSucc c) (by rw [callSucc_alive]; exact hc)
    constructor
    · refine List.Pairwise.cons ?_ ih1
      intro i hi
      have h2 := ih2 i hi
      rw [callSucc_requestId] at h2
      rw [callReq_id]
      omega
    · intro i hi
      rcases List.mem_cons.mp hi with hh | hh
      · rw [hh, callReq_id]
        omega
      · have h2 := ih2 i hh
        rw [callSucc_requestId] at h2
        omega

/-- C4. Request-id uniqueness and monotonicity: for any sequence of `call`
invocations on a live connection, the assigned ids are pairwise strictly
increasing in issuance order (hence each id is distinct from every
previously assigned id). -/
theorem call_ids_strictly_increasing (c : Client)
    (reqs : List (String × Json)) (h : c.processAlive = true) :
    List.Pairwise (· < ·) (runCalls c reqs).2 :=
  (runCalls_ids reqs c h).1

/-- Three concrete call invocations. -/
def threeCalls : List (String × Json) :=
  [("tools/call", Json.null), ("tools/call", Json.null),
    ("tools/call", Json.null)]

/-- Witness for id monotonicity: three calls on a fresh Ready client are
assigned the strictly increasing ids 1, 2, 3. -/
theorem call_ids_strictly_increasing_witness :
    readyClient.processAlive = true ∧
      List.Pairwise (· < ·) (runCalls readyClient threeCalls).2 ∧
      (runCalls readyClient threeCalls).2 = [1, 2, 3] :=
  ⟨rfl, call_ids_strictly_increasing readyClient threeCalls rfl, by decide⟩

/-- The params of the `initialize` handshake request sent by `connect`. -/
def initParams : Json :=
  Json.obj [("protocolVersion", Json.str "0.1.0"),
    ("capabilities", Json.obj []),
    ("clientInfo", Json.obj [("name", Json.str "caiide-memory"),
      ("version", Json.str "0.1.0")])]

/-- `McpClient.connect`: a no-op when already connected with a live
process; otherwise the worker is spawned and the handshake request is
issued through `call` (assigning it a fresh id); on handshake success the
connected flag is set.  Returns the ids assigned during the operation. -/
def connectStep (c : Client) : Client × List Int :=
  if c.connected && c.processAlive then (c, [])
  else
    match call { c with processAlive := true } "initialize" initParams with
    | some (c2, req) => ({ c2 with connected := true }, [req.id])
    | none => ({ c with processAlive := true }, [])

/-- A whole-lifetime operation on a client instance. -/
inductive Op where
  | connect : Op
  | disconnect : Op
  | call (m : String) (ps : Json) : Op
  | feed (data : List Char) : Op
  | timeoutFired (id : Int) : Op
  | procClose : Op

/-- Execute one lifetime operation, returning the ids it assigns:
`connect`/`disconnect` per the source, `call` assigning one id on a live
handle, `feed` routing worker output, `timeoutFired` a timeout callback,
and `procClose` the process `close` handler (which only clears the
connected flag). -/
def stepOp (parse : List Char → Option JsonRpcResponse) (c : Client) :
    Op → Client × List Int
  | .connect => connectStep c
  | .disconnect => ((disconnect c).1, [])
  | .call m ps =>
    match call c m ps with
    | some (c1, req) => (c1, [req.id])
    | none => (c, [])
  | .feed d => ((handleData parse c d).1, [])
  | .timeoutFired i => ((timeoutFire c i).1, [])
  | .procClose => ({ c with connected := false }, [])

/-- Execute a sequence of lifetime operations, collecting every assigned
request id in order of assignment. -/
def runOps (parse : List Char → Option JsonRpcResponse) (c : Client) :
    List Op → Client × List Int
  | [] => (c, [])
  | op :: ops =>
    ((runOps parse (stepOp parse c op).1 ops).1,
      (stepOp parse c op).2 ++ (runOps parse (stepOp parse c op).1 ops).2)

lemma connectStep_spec (c : Client) :
    c.requestId ≤ (connectStep c).1.requestId ∧
      List.Pairwise (· < ·) (connectStep c).2 ∧
      ∀ i ∈ (connectStep c).2,
        c.requestId < i ∧ i ≤ (connectStep c).1.requestId := by
  unfold connectStep
  by_cases hc : (c.connected && c.processAlive) = true
  · rw [if_pos hc]
    exact ⟨le_refl _, List.Pairwise.nil, by simp⟩
  · rw [if_neg hc, call_eq_of_alive rfl "initialize" initParams]
    refine ⟨?_, by simp, ?_⟩
    · show c.requestId ≤ c.requestId + 1
      omega
    · intro i hi
      simp only [List.mem_singleton] at hi
      subst hi
      show c.requestId < c.requestId + 1 ∧ c.requestId + 1 ≤ c.requestId + 1
      omega

lemma timeoutFire_requestId (c : Client) (i : Int) :
    (timeoutFire c i).1.requestId = c.requestId := by
  unfold timeoutFire
  by_cases h : i ∈ c.pending
  · simp [h]
  · simp [h]

lemma stepOp_spec (parse : List Char → Option JsonRpcResponse) (c : Client)
    (op : Op) :
    c.requestId ≤ (stepOp parse c op).1.requestId ∧
      List.Pairwise (· < ·) (stepOp parse c op).2 ∧
      ∀ i ∈ (stepOp parse c op).2,
        c.requestId < i ∧ i ≤ (stepOp parse c op).1.requestId := by
  cases op with
  | connect => exact connectStep_spec c
  | disconnect =>
    have h := disconnect_spec c
    exact ⟨le_of_eq h.2.1.symm, List.Pairwise.nil, by simp [stepOp]⟩
  | call m ps =>
    by_cases ha : c.processAlive = true
    · simp only [stepOp]
      rw [call_eq_of_alive ha m ps]
      refine ⟨?_, ?_, ?_⟩
      · show c.requestId ≤ c.requestId + 1
        omega
      · show List.Pairwise (· < ·) [(callReq c m ps).id]
        simp
      · intro i hi
        simp only [List.mem_singleton] at hi
        subst hi
        show c.requestId < c.requestId + 1 ∧ c.requestId + 1 ≤ c.requestId + 1
        omega
    · simp only [stepOp]
      rw [call_eq_of_dead (by simpa using ha) m ps]
      exact ⟨le_refl _, List.Pairwise.nil, by simp⟩
  | feed d => exact ⟨le_refl _, List.Pairwise.nil, by simp [stepOp]⟩
  | timeoutFired i =>
    refine ⟨le_of_eq (timeoutFire_requestId c i).symm, List.Pairwise.nil,
      by simp [stepOp]⟩
  | procClose => exact ⟨le_refl _, List.Pairwise.nil, by simp [stepOp]⟩

lemma runOps_spec (parse : List Char → Option JsonRpcResponse)
    (ops : List Op) :
    ∀ c : Client,
      c.requestId ≤ (runOps parse c ops).1.requestId ∧
        List.Pairwise (· < ·) (runOps parse c ops).2 ∧
        ∀ i ∈ (runOps parse c ops).2,
          c.requestId < i ∧ i ≤ (runOps parse c ops).1.requestId := by
  induction ops with
  | nil => intro c; exact ⟨le_refl _, List.Pairwise.nil, by simp [runOps]⟩
  | cons op ops ih =>
    intro c
    obtain ⟨s1, s2, s3⟩ := stepOp_spec parse c op
    obtain ⟨i1, i2, i3⟩ := ih (stepOp parse c op).1
    refine ⟨le_trans s1 i1, ?_, ?_⟩
    · rw [runOps]
      rw [List.pairwise_append]
      refine ⟨s2, i2, ?_⟩
      intro x hx y hy
      exact lt_of_le_of_lt (s3 x hx).2 (i3 y hy).1
    · intro i hi
      rw [runOps] at hi
      rcases List.mem_append.mp hi with hh | hh
      · exact ⟨(s3 i hh).1, le_trans (s3 i hh).2 i1⟩
      · exact ⟨lt_of_le_of_lt s1 (i3 i hh).1, (i3 i hh).2⟩

/-- C10. The request-id counter is never reset: `disconnect` leaves it
unchanged, `connect` never decreases it, and across any sequence of
connect/disconnect/call/feed/timeout/close operations on one instance the
assigned ids remain pairwise strictly increasing — no id is ever assigned
to two different requests in the instance's lifetime. -/
theorem request_id_counter_never_reset
    (parse : List Char → Option JsonRpcResponse) (c : Client)
    (ops : List Op) :
    List.Pairwise (· < ·) (runOps parse c ops).2 ∧
      (stepOp parse c Op.disconnect).1.requestId = c.requestId ∧
      c.requestId ≤ (stepOp parse c Op.connect).1.requestId :=
  ⟨(runOps_spec parse ops c).2.1,
    (disconnect_spec c).2.1,
    (stepOp_spec parse c Op.connect).1⟩

/- Typed method surface: result-payload decoding. -/

/-- A memory entry as documented for the typed methods
(`id, content, doc_type, source, relevance?, tags?, created_at?`). -/
structure MemoryResult where
  id : String
  content : String
  doc_type : String
  source : String
  relevance : Option Int := none
  tags : Option (List String) := none
  created_at : Option String := none
deriving Repr

/-- One element of the tool result's `content` array; its `text` member may
be absent (the optional chaining `?.text` guards it). -/
structure ToolContent where
  text : Option String
deriving Repr

/-- The result payload of a `tools/call` response as the typed methods read
it; the `content` member may be absent. -/
structure ToolResult where
  content : Option (List ToolContent)
deriving Repr

/-- The optional chaining `result?.content?.[0]?.text`. -/
def getText (r : Option ToolResult) : Option String :=
  ((r.bind fun x => x.content).bind List.head?).bind fun x => x.text

/-- Result decoding of `McpClient.search`: if the chained text is present
and truthy (non-empty), `JSON.parse` it (the `parseList` parameter returns
`none` when `JSON.parse` throws) and fall back to the empty sequence on a
parse failure; otherwise return the empty sequence. -/
def searchDecode (parseList : String → Option (List MemoryResult))
    (r : Option ToolResult) : List MemoryResult :=
  match getText r with
  | some t => if t ≠ "" then (parseList t).getD [] else []
  | none => []

/-- Result decoding of `McpClient.list` (same code shape as `search`). -/
def listDecode (parseList : String → Option (List MemoryResult))
    (r : Option ToolResult) : List MemoryResult :=
  match getText r with
  | some t => if t ≠ "" then (parseList t).getD [] else []
  | none => []

/-- Result decoding of `McpClient.recall`: absent/empty text or a parse
failure yields `null` (absent). -/
def recallDecode (parseOne : String → Option MemoryResult)
    (r : Option ToolResult) : Option MemoryResult :=
  match getText r with
  | some t => if t ≠ "" then parseOne t else none
  | none => none

/-- C5. Decode trouble is swallowed: for every successful call whose result
payload fails to decode into the documented shape — the chained content
text is missing, empty, or its `JSON.parse` throws — `search` and `list`
return the empty sequence (a sequence, never a thrown decode error) and
`recall` returns absent. -/
theorem typed_decode_failure_yields_empty
    (parseList : String → Option (List MemoryResult))
    (parseOne : String → Option MemoryResult) (r : Option ToolResult)
    (h : ∀ t, getText r = some t → t ≠ "" →
      parseList t = none ∧ parseOne t = none) :
    searchDecode parseList r = [] ∧ listDecode parseList r = [] ∧
      recallDecode parseOne r = none := by
  cases hg : getText r with
  | none => simp [searchDecode, listDecode, recallDecode, hg]
  | some t =>
    by_cases ht : t = ""
    · subst ht
      simp [searchDecode, listDecode, recallDecode, hg]
    · obtain ⟨h1, h2⟩ := h t hg ht
      simp [searchDecode, listDecode, recallDecode, hg, ht, h1, h2]

/-- A list decoder that fails on every input. -/
def noParseList : String → Option (List MemoryResult) := fun _ => none

/-- A single-entry decoder that fails on every input. -/
def noParseOne : String → Option MemoryResult := fun _ => none

/-- A tool result whose content text is present but malformed for the
documented shapes (every decoder rejects it). -/
def badToolResult : Option ToolResult :=
  some { content := some [{ text := some "not json" }] }

/-- Witness for decode leniency: a present but malformed content text makes
`search` and `list` return the empty sequence and `recall` return absent. -/
theorem typed_decode_failure_yields_empty_witness :
    searchDecode noParseList badToolResult = [] ∧
      listDecode noParseList badToolResult = [] ∧
      recallDecode noParseOne badToolResult = none :=
  typed_decode_failure_yields_empty noParseList noParseOne badToolResult
    (fun _ _ _ => ⟨rfl, rfl⟩)

/- Envelope serialization (model of JSON.stringify on request envelopes). -/

/-- Escape one character the way `JSON.stringify` escapes string contents
(quote, backslash and the common control characters). -/
def escChar (ch : Char) : List Char :=
  if ch = '"' then ['\\', '"']
  else if ch = '\\' then ['\\', '\\']
  else if ch = '\n' then ['\\', 'n']
  else if ch = '\r' then ['\\', 'r']
  else if ch = '\t' then ['\\', 't']
  else [ch]

/-- Escape a string for inclusion in a JSON string literal. -/
def jsonEscape (s : String) : String :=
  String.mk (s.data.foldr (fun ch acc => escChar ch ++ acc) [])

mutual

/-- Render a JSON value to its serialized text. -/
def Json.render : Json → String
  | .null => "null"
  | .bool b => if b then "true" else "false"
  | .num n => toString n
  | .str s => "\"" ++ jsonEscape s ++ "\""
  | .arr es => "[" ++ Json.renderElems es ++ "]"
  | .obj fs => "\x7b" ++ Json.renderFields fs ++ "\x7d"

/-- Render the comma-separated elements of a JSON array. -/
def Json.renderElems : List Json → String
  | [] => ""
  | [e] => Json.render e
  | e :: es => Json.render e ++ "," ++ Json.renderElems es

/-- Render the comma-separated members of a JSON object. -/
def Json.renderFields : List (String × Json) → String
  | [] => ""
  | [(k, v)] => "\"" ++ jsonEscape k ++ "\":" ++ Json.render v
  | (k, v) :: fs =>
    "\"" ++ jsonEscape k ++ "\":" ++ Json.render v ++ "," ++
      Json.renderFields fs

end

/-- The JSON object `JSON.stringify` serializes for a request envelope,
with members in insertion order: jsonrpc, method, params, id. -/
def Request.toJson (r : Request) : Json :=
  Json.obj [("jsonrpc", Json.str r.jsonrpc), ("method", Json.str r.method),
    ("params", r.params), ("id", Json.num r.id)]

/-- The exact bytes written to the worker's stdin for one request:
`JSON.stringify(request) + '\n'` — a single newline-terminated line. -/
def Request.wire (r : Request) : String :=
  Json.render (Request.toJson r) ++ "\n"

/-- The params object `search` passes to `call`:
`(name: memory_search, arguments: (query, limit))`. -/
def searchParams (query : String) (limit : Int) : Json :=
  Json.obj [("name", Json.str "memory_search"),
    ("arguments", Json.obj [("query", Json.str query),
      ("limit", Json.num limit)])]

/-- `McpClient.search`'s underlying call:
`this.call('tools/call', (name: 'memory_search', arguments: ...))`. -/
def searchCall (c : Client) (query : String) (limit : Int) :
    Option (Client × Request) :=
  call c "tools/call" (searchParams query limit)

/-- C7 counterexample. The envelope `search` writes has method
`tools/call`, not `memory_search` (the tool name travels inside the params
object), so the claimed envelope shape is wrong about the method field. -/
theorem search_envelope_method_counterexample :
    (searchCall readyClient "foo" 20).map (fun x => x.2.method) =
        some "tools/call" ∧
      ("tools/call" : String) ≠ "memory_search" := by
  refine ⟨rfl, by decide⟩

/-- C7 amended. For every `search(query, limit)` on a client with a live
worker handle, the written envelope is the single newline-terminated line
`JSON.stringify` of an object whose constant tag is `jsonrpc: 2.0`, whose
method is `tools/call`, whose params are
`(name: memory_search, arguments: (query, limit))`, and whose id is the
freshly assigned `requestId + 1`. -/
theorem search_envelope_shape (c : Client) (q : String) (lim : Int)
    (h : c.processAlive = true) :
    (searchCall c q lim).map (fun x => x.2.jsonrpc) = some "2.0" ∧
      (searchCall c q lim).map (fun x => x.2.method) = some "tools/call" ∧
      (searchCall c q lim).map (fun x => x.2.params) =
        some (searchParams q lim) ∧
      (searchCall c q lim).map (fun x => x.2.id) = some (c.requestId + 1) ∧
      (searchCall c q lim).map (fun x => Request.wire x.2) =
        some (Json.render (Request.toJson (callReq c "tools/call"
          (searchParams q lim))) ++ "\n") := by
  unfold searchCall
  rw [call_eq_of_alive h "tools/call" (searchParams q lim)]
  exact ⟨rfl, rfl, rfl, rfl, rfl⟩

/-- Witness for the envelope shape at concrete inputs, including the full
serialized line: `search("foo", 20)` on a fresh Ready client writes exactly
one line containing the `jsonrpc` tag, the `tools/call` method, the nested
`memory_search` params and id 1, terminated by a single newline. -/
theorem search_envelope_shape_witness :
    readyClient.processAlive = true ∧
      ((searchCall readyClient "foo" 20).map (fun x => x.2.method) =
          some "tools/call" ∧
        (searchCall readyClient "foo" 20).map (fun x => x.2.id) = some 1) ∧
      (searchCall readyClient "foo" 20).map (fun x => Request.wire x.2) =
        some ("\x7b\"jsonrpc\":\"2.0\",\"method\":\"tools/call\",\"params\":\x7b\"name\":\"memory_search\",\"arguments\":\x7b\"query\":\"foo\",\"limit\":20\x7d\x7d,\"id\":1\x7d\n") := by
  have h := search_envelope_shape readyClient "foo" 20 rfl
  refine ⟨rfl, ⟨h.2.1, h.2.2.2.1⟩, ?_⟩
  rfl

end Mcp
